import Mathlib

/-!
# Verification of the rowing-metronome core (src/app.js)

Shallow embedding of the pace-derivation and timer-scheduling logic of
`src/app.js`. JavaScript numbers are modelled as exact rationals extended
with the special values `NaN`, `+Infinity` and `-Infinity` (the type
`JSNum`); the DOM, audio and CSS effects are external collaborators and are
not part of the state, except that timers record the effect their awaiting
continuation would perform (`Effect`), which is what the scheduling claims
are about. Negative zero is identified with zero; this only affects the
sign of an infinity produced by division by zero, and every such infinity
is immediately fed to `round`, which turns any non-finite value into `NaN`
either way.
-/

set_option maxRecDepth 4000

unseal Rat.mul Rat.inv Rat.add Rat.sub

namespace WorkingSyncRow

/-- Equality of `Except` values is decidable when it is on both sides. -/
instance {ε : Type u} {α : Type v} [DecidableEq ε] [DecidableEq α] :
    DecidableEq (Except ε α) := fun x y =>
  match x, y with
  | .ok a, .ok b =>
    if h : a = b then isTrue (congrArg Except.ok h)
    else isFalse fun hc => h (Except.noConfusion hc fun h2 => h2)
  | .error a, .error b =>
    if h : a = b then isTrue (congrArg Except.error h)
    else isFalse fun hc => h (Except.noConfusion hc fun h2 => h2)
  | .ok _, .error _ => isFalse fun hc => Except.noConfusion hc
  | .error _, .ok _ => isFalse fun hc => Except.noConfusion hc

/-- `Rat.floor` agrees with the mathematical floor; the former is used in
definitions because it evaluates inside the kernel. -/
theorem ratFloor_eq (q : ℚ) : Rat.floor q = ⌊q⌋ :=
  eq_of_forall_le_iff fun z => by rw [Int.le_floor, Rat.le_floor]

/-- A JavaScript number: `NaN`, `+Infinity`, `-Infinity`, or a finite value
(modelled as an exact rational). -/
inductive JSNum where
  | nan : JSNum
  | inf : JSNum
  | ninf : JSNum
  | num : ℚ → JSNum
deriving DecidableEq, Repr

/-- JavaScript addition (`x + y`) on `JSNum`. -/
def jsAdd : JSNum → JSNum → JSNum
  | .nan, _ => .nan
  | _, .nan => .nan
  | .inf, .ninf => .nan
  | .ninf, .inf => .nan
  | .inf, _ => .inf
  | _, .inf => .inf
  | .ninf, _ => .ninf
  | _, .ninf => .ninf
  | .num a, .num b => .num (a + b)

/-- JavaScript negation (`-x`) on `JSNum`. -/
def jsNeg : JSNum → JSNum
  | .nan => .nan
  | .inf => .ninf
  | .ninf => .inf
  | .num a => .num (-a)

/-- JavaScript subtraction (`x - y`), which is `x + (-y)`. -/
def jsSub (x y : JSNum) : JSNum := jsAdd x (jsNeg y)

/-- JavaScript division (`x / y`) on `JSNum`.  Division of a nonzero finite
number by zero yields an infinity (we identify `-0` with `0`, so the sign
follows the numerator); `0 / 0` is `NaN`. -/
def jsDiv : JSNum → JSNum → JSNum
  | .nan, _ => .nan
  | _, .nan => .nan
  | .inf, .inf => .nan
  | .inf, .ninf => .nan
  | .ninf, .inf => .nan
  | .ninf, .ninf => .nan
  | .inf, .num b => if b < 0 then .ninf else .inf
  | .ninf, .num b => if b < 0 then .inf else .ninf
  | .num _, .inf => .num 0
  | .num _, .ninf => .num 0
  | .num a, .num b =>
    if b = 0 then (if a = 0 then .nan else if a < 0 then .ninf else .inf)
    else .num (a / b)

/-- JavaScript strict comparison (`x < y`); any comparison with `NaN` is
`false`. -/
def jsLt : JSNum → JSNum → Bool
  | .nan, _ => false
  | _, .nan => false
  | .ninf, .ninf => false
  | .ninf, _ => true
  | _, .ninf => false
  | .inf, _ => false
  | .num _, .inf => true
  | .num a, .num b => decide (a < b)

/-- `round(number, decimalPlaces)` from src/app.js:
`Number(Math.round(number + "e" + decimalPlaces) + "e-" + decimalPlaces)`.
For a finite number the string-exponent trick shifts the decimal point, so
it computes `Math.round(number * 10^d) / 10^d` in exact decimal arithmetic
(that is the point of the trick: it avoids binary floating-point error in
the scaling); `Math.round` rounds half toward `+Infinity`, i.e. it is
`⌊x + 1/2⌋`.  For `NaN` and the infinities the concatenated string
(`"NaNe2"`, `"Infinitye2"`, `"-Infinitye2"`) does not parse back as a
number, so the result is `NaN`. -/
def round (x : JSNum) (decimalPlaces : ℕ) : JSNum :=
  match x with
  | .num q => .num ((Rat.floor (q * 10 ^ decimalPlaces + 1 / 2) : ℤ) / (10 : ℚ) ^ decimalPlaces)
  | _ => .nan

/-- Value of a decimal digit character. -/
def digitVal (c : Char) : ℕ := c.toNat - '0'.toNat

/-- Natural number denoted by a list of decimal digit characters. -/
def digitsToNat (ds : List Char) : ℕ :=
  ds.foldl (fun acc c => 10 * acc + digitVal c) 0

/-- Parse an optional exponent part (`e`/`E`, optional sign, digits) at the
head of the character list; returns the exponent (0 when no well-formed
exponent part is present, in which case nothing is consumed). -/
def parseExponent (cs : List Char) : ℤ :=
  match cs with
  | c :: rest =>
    if c = 'e' ∨ c = 'E' then
      match rest with
      | '+' :: r2 =>
        let ds := r2.takeWhile Char.isDigit
        if ds = [] then 0 else (digitsToNat ds : ℤ)
      | '-' :: r2 =>
        let ds := r2.takeWhile Char.isDigit
        if ds = [] then 0 else -(digitsToNat ds : ℤ)
      | _ =>
        let ds := rest.takeWhile Char.isDigit
        if ds = [] then 0 else (digitsToNat ds : ℤ)
    else 0
  | [] => 0

/-- Parse an unsigned decimal mantissa (`digits`, `digits.digits`,
`digits.`, or `.digits`) at the head of the character list; returns the
value and the remaining characters, or `none` when no digit is present. -/
def parseMantissa (cs : List Char) : Option (ℚ × List Char) :=
  let ip := cs.takeWhile Char.isDigit
  let r1 := cs.dropWhile Char.isDigit
  match r1 with
  | '.' :: r2 =>
    let fp := r2.takeWhile Char.isDigit
    let r3 := r2.dropWhile Char.isDigit
    if ip = [] ∧ fp = [] then none
    else some ((digitsToNat ip : ℚ) + (digitsToNat fp : ℚ) / 10 ^ fp.length, r3)
  | _ => if ip = [] then none else some ((digitsToNat ip : ℚ), r1)

/-- `10^e` for an integer exponent, as a rational. -/
def qpow10 (e : ℤ) : ℚ :=
  if 0 ≤ e then (10 : ℚ) ^ e.toNat else 1 / (10 : ℚ) ^ (-e).toNat

/-- Model of `Number.parseFloat` (ECMA-262): skip leading whitespace, then
read the longest prefix that is a signed decimal literal (optionally with a
fraction and exponent part, or the literal `Infinity`); the remainder of
the string is ignored.  If no such prefix exists the result is `NaN`. -/
def parseFloat (str : String) : JSNum :=
  let cs := str.data.dropWhile Char.isWhitespace
  let sign : ℚ := match cs with
    | '-' :: _ => -1
    | _ => 1
  let cs2 : List Char := match cs with
    | '+' :: rest => rest
    | '-' :: rest => rest
    | _ => cs
  if cs2.take 8 = "Infinity".data then (if sign < 0 then .ninf else .inf)
  else
    match parseMantissa cs2 with
    | none => .nan
    | some (m, rest) => .num (sign * m * qpow10 (parseExponent rest))

/-- The three pace fields of `paceSettings`. -/
structure PaceSettings where
  cadence : JSNum
  driveTime : JSNum
  recoverTime : JSNum
deriving DecidableEq, Repr

/-- One of the three pace inputs (the DOM ids of the three wired `<input>`
elements, hence the possible values of `this.id` in `inputUpdated`). -/
inductive Setting where
  | cadence : Setting
  | driveTime : Setting
  | recoverTime : Setting
deriving DecidableEq, Repr

/-- The id string of the input element of a setting. -/
def settingName : Setting → String
  | .cadence => "cadence"
  | .driveTime => "driveTime"
  | .recoverTime => "recoverTime"

/-- Read a field of `paceSettings`. -/
def getPace : Setting → PaceSettings → JSNum
  | .cadence, ps => ps.cadence
  | .driveTime, ps => ps.driveTime
  | .recoverTime, ps => ps.recoverTime

/-- Write a field of `paceSettings`. -/
def setPace : Setting → JSNum → PaceSettings → PaceSettings
  | .cadence, v, ps => { ps with cadence := v }
  | .driveTime, v, ps => { ps with driveTime := v }
  | .recoverTime, v, ps => { ps with recoverTime := v }

/-- The observable effect performed by the continuation awaiting a given
timer: playing an audio cue (`playCountdownSound`/`playCatchSound`/
`playRecoverSound`) or changing the visual state of the rower (adding or
removing a CSS class). -/
inductive Effect where
  | playCue : String → Effect
  | setVisualState : Option String → Effect
deriving DecidableEq, Repr

/-- A pending `setTimeout` timer: its id (the value stored in
`timeoutIDs`), its due time, and the effect its continuation performs when
it fires.  A pending entry is a timer that has not yet been dispatched;
since the event loop may dispatch a timer any time at or after its due
time, an entry may still be pending at a clock value past `due`. -/
structure PendingTimer where
  id : ℕ
  due : ℕ
  eff : Effect
deriving DecidableEq, Repr

/-- The mutable global state of src/app.js that the core logic touches.
`timeoutIDs` is the JavaScript object mapping wait labels to the most
recently stored timeout id (keys are unique, assignment replaces);
`pending` is the set of created-but-not-yet-dispatched timers; `now` is
the current clock in milliseconds.  DOM element contents, CSS classes and
audio elements are external collaborators and are not state. -/
structure AppState where
  paceSettings : PaceSettings
  previousSettings : List String
  animationPlaying : Bool
  nextTimeoutId : ℕ
  timeoutIDs : List (String × ℕ)
  pending : List PendingTimer
  now : ℕ
deriving DecidableEq, Repr

/-- Keys of the timeout-id map. -/
def timeoutKeys (xs : List (String × ℕ)) : List String := xs.map Prod.fst

/-- `Object.values(timeoutIDs)`: the stored timeout ids. -/
def timeoutValues (xs : List (String × ℕ)) : List ℕ := xs.map Prod.snd

/-- Lookup in the timeout-id map (first matching key). -/
def lookupLabel (l : String) : List (String × ℕ) → Option ℕ
  | [] => none
  | (k, v) :: rest => if k = l then some v else lookupLabel l rest

/-- JavaScript object assignment `timeoutIDs[l] = v`: replace the value
under an existing key in place, or append a new key. -/
def assocUpdate (l : String) (v : ℕ) : List (String × ℕ) → List (String × ℕ)
  | [] => [(l, v)]
  | (k, w) :: rest => if k = l then (l, v) :: rest else (k, w) :: assocUpdate l v rest

/-- Boolean membership of a natural number in a list. -/
def memN (n : ℕ) : List ℕ → Bool
  | [] => false
  | m :: rest => (n == m) || memN n rest

/-- `wait(ms, id)` from src/app.js: create a `setTimeout` for `ms`
milliseconds and record its id in `timeoutIDs` under the label —
overwriting whatever id was stored under that label before.  `eff` is the
effect the continuation awaiting this particular wait performs when the
timer fires (external audio/CSS calls in the source). -/
def wait (ms : ℕ) (label : String) (eff : Effect) (s : AppState) : AppState :=
  { s with
    timeoutIDs := assocUpdate label s.nextTimeoutId s.timeoutIDs
    pending := s.pending ++ [⟨s.nextTimeoutId, s.now + ms, eff⟩]
    nextTimeoutId := s.nextTimeoutId + 1 }

/-- Let the clock advance (no code runs; timers only become due). -/
def advanceTime (dt : ℕ) (s : AppState) : AppState := { s with now := s.now + dt }

/-- `stopAnimation()` from src/app.js: clear the playing flag and call
`clearTimeout` on every id in `Object.values(timeoutIDs)`, removing those
timers from the pending set.  (Button text, CSS classes and audio pausing
are external effects.)  Note the map entries themselves are not deleted,
and a pending timer whose id is no longer among the values of the map is not
cleared. -/
def stopAnimation (s : AppState) : AppState :=
  { s with
    animationPlaying := false
    pending := s.pending.filter (fun p => !(memN p.id (timeoutValues s.timeoutIDs))) }

/-- The effects of the timers that can have fired by time `t`: every
pending timer whose due time has passed dispatches and runs its
continuation. -/
def firesBy (s : AppState) (t : ℕ) : List Effect :=
  (s.pending.filter (fun p => decide (p.due ≤ t))).map (fun p => p.eff)

/-- `resetInputs()` from src/app.js: stop the animation, zero the three
pace settings and reset `previousSettings` (clearing the HTML inputs is an
external effect). -/
def resetInputs (s : AppState) : AppState :=
  let s1 := stopAnimation s
  { s1 with
    paceSettings := { cadence := .num 0, driveTime := .num 0, recoverTime := .num 0 }
    previousSettings := ["", ""] }

/-- The state after page load: the source initialises `paceSettings = {}`
and `previousSettings = ["", ""]` and then calls `resetInputs()`, which
gives all three pace fields the value 0. -/
def loadState : AppState :=
  resetInputs
    { paceSettings := { cadence := .num 0, driveTime := .num 0, recoverTime := .num 0 }
      previousSettings := ["", ""]
      animationPlaying := false
      nextTimeoutId := 0
      timeoutIDs := []
      pending := []
      now := 0 }

/-- `addToPreviousSettings(setting)` from src/app.js: if the setting equals
the most recent entry (`previousSettings[1]`) do nothing, otherwise push it
and shift off the oldest entry. -/
def addToPreviousSettings (setting : String) (prev : List String) : List String :=
  if prev.get? 1 = some setting then prev else (prev ++ [setting]).drop 1

/-- `findRemainingInput()` from src/app.js: the first key of
`paceSettings` (key order `cadence`, `driveTime`, `recoverTime`, fixed by
`resetInputs` at load) that is not in `previousSettings`; `none` models the
`undefined` result when no key qualifies. -/
def findRemainingInput (s : AppState) : Option String :=
  (["cadence", "driveTime", "recoverTime"].filter
    (fun k => !(s.previousSettings.contains k))).head?

/-- `recalculateCadence()` from src/app.js.  A thrown
`Error("Calculated invalid cadence")` is modelled as `.error` carrying the
state after the `resetInputs()` call that precedes the throw; setting the
value of the HTML input is an external effect. -/
def recalculateCadence (s : AppState) : Except AppState AppState :=
  let iterationDuration := jsAdd s.paceSettings.driveTime s.paceSettings.recoverTime
  let cadence := round (jsDiv (.num 60) iterationDuration) 2
  if jsLt cadence (.num 0) then .error (resetInputs s)
  else .ok { s with paceSettings := { s.paceSettings with cadence := cadence } }

/-- `recalculateDriveTime()` from src/app.js. -/
def recalculateDriveTime (s : AppState) : Except AppState AppState :=
  let iterationDuration := jsDiv (.num 60) s.paceSettings.cadence
  let driveTime := round (jsSub iterationDuration s.paceSettings.recoverTime) 2
  if jsLt driveTime (.num 0) then .error (resetInputs s)
  else .ok { s with paceSettings := { s.paceSettings with driveTime := driveTime } }

/-- `recalculateRecoverTime()` from src/app.js. -/
def recalculateRecoverTime (s : AppState) : Except AppState AppState :=
  let iterationDuration := jsDiv (.num 60) s.paceSettings.cadence
  let recoverTime := round (jsSub iterationDuration s.paceSettings.driveTime) 2
  if jsLt recoverTime (.num 0) then .error (resetInputs s)
  else .ok { s with paceSettings := { s.paceSettings with recoverTime := recoverTime } }

/-- `updatePaceSetting(setting)` from src/app.js: dispatch on the setting
name through `paceSettingUpdateFunctions`; an unknown or `undefined` name
fails the `hasOwnProperty` check, logs to the console (external effect) and
returns without touching the state. -/
def updatePaceSetting (setting : Option String) (s : AppState) : Except AppState AppState :=
  if setting = some "cadence" then recalculateCadence s
  else if setting = some "driveTime" then recalculateDriveTime s
  else if setting = some "recoverTime" then recalculateRecoverTime s
  else .ok s

/-- `inputUpdated()` from src/app.js (the `input` event handler of the
three pace inputs; `this.id` is the edited field, `this.value` the raw
string).  `updateAnimationCode()` only writes CSS (external effect). -/
def inputUpdated (f : Setting) (raw : String) (s : AppState) : Except AppState AppState :=
  let s1 := stopAnimation s
  let s2 := { s1 with previousSettings := addToPreviousSettings (settingName f) s1.previousSettings }
  let s3 := { s2 with paceSettings := setPace f (parseFloat raw) s2.paceSettings }
  if (s3.previousSettings.get? 0).getD "" = "" then .ok s3
  else updatePaceSetting (findRemainingInput s3) s3

/-- A user action affecting the pace model: editing one of the three
inputs, or pressing Reset.  A derivation error thrown out of the `input`
event handler propagates to the event loop; the state the handler leaves
behind (the post-`resetInputs` state) is the state the next event sees. -/
inductive Op where
  | edit : Setting → String → Op
  | reset : Op
deriving DecidableEq, Repr

/-- Apply one user action to the state. -/
def applyOp : Op → AppState → AppState
  | .edit f raw, s =>
    match inputUpdated f raw s with
    | .ok s' => s'
    | .error s' => s'
  | .reset, s => resetInputs s

/-- Apply a sequence of user actions. -/
def applyOps (ops : List Op) (s : AppState) : AppState :=
  ops.foldl (fun t op => applyOp op t) s

/-- The rounding policy stated by the spec, written from its words: round half
away from zero to exactly `d` decimal places.  Used only to compare the
policy of the spec with `round` from the source. -/
def roundHalfAwayFromZero (x : ℚ) (d : ℕ) : ℚ :=
  if x < 0 then -((Rat.floor ((-x) * 10 ^ d + 1 / 2) : ℤ) : ℚ) / 10 ^ d
  else ((Rat.floor (x * 10 ^ d + 1 / 2) : ℤ) : ℚ) / 10 ^ d

/-! ## Auxiliary lemmas about the embedded operations -/

theorem memN_iff (n : ℕ) (l : List ℕ) : memN n l = true ↔ n ∈ l := by
  induction l with
  | nil => simp [memN]
  | cons m rest ih => simp [memN, ih, List.mem_cons]

theorem filter_out_tracked (vals : List ℕ) (l : List PendingTimer)
    (h : ∀ p ∈ l, p.id ∈ vals) : l.filter (fun p => !(memN p.id vals)) = [] := by
  induction l with
  | nil => rfl
  | cons p rest ih =>
    have hp : memN p.id vals = true := (memN_iff _ _).mpr (h p (by simp))
    simp only [List.filter_cons, hp, Bool.not_true]
    exact ih fun q hq => h q (by simp [hq])

theorem recalculateCadence_error (s s' : AppState)
    (h : recalculateCadence s = .error s') : s' = resetInputs s := by
  simp only [recalculateCadence] at h
  split at h
  · injection h with h; exact h.symm
  · simp at h

theorem recalculateDriveTime_error (s s' : AppState)
    (h : recalculateDriveTime s = .error s') : s' = resetInputs s := by
  simp only [recalculateDriveTime] at h
  split at h
  · injection h with h; exact h.symm
  · simp at h

theorem recalculateRecoverTime_error (s s' : AppState)
    (h : recalculateRecoverTime s = .error s') : s' = resetInputs s := by
  simp only [recalculateRecoverTime] at h
  split at h
  · injection h with h; exact h.symm
  · simp at h

theorem recalculateCadence_ok (s s' : AppState) (h : recalculateCadence s = .ok s') :
    s' = { s with paceSettings := { s.paceSettings with
      cadence := round (jsDiv (.num 60)
        (jsAdd s.paceSettings.driveTime s.paceSettings.recoverTime)) 2 } } := by
  simp only [recalculateCadence] at h
  split at h
  · simp at h
  · injection h with h; exact h.symm

theorem recalculateDriveTime_ok (s s' : AppState) (h : recalculateDriveTime s = .ok s') :
    s' = { s with paceSettings := { s.paceSettings with
      driveTime := round (jsSub (jsDiv (.num 60) s.paceSettings.cadence)
        s.paceSettings.recoverTime) 2 } } := by
  simp only [recalculateDriveTime] at h
  split at h
  · simp at h
  · injection h with h; exact h.symm

theorem recalculateRecoverTime_ok (s s' : AppState) (h : recalculateRecoverTime s = .ok s') :
    s' = { s with paceSettings := { s.paceSettings with
      recoverTime := round (jsSub (jsDiv (.num 60) s.paceSettings.cadence)
        s.paceSettings.driveTime) 2 } } := by
  simp only [recalculateRecoverTime] at h
  split at h
  · simp at h
  · injection h with h; exact h.symm

theorem updatePaceSetting_error (g : Option String) (s s' : AppState)
    (h : updatePaceSetting g s = .error s') : s' = resetInputs s := by
  unfold updatePaceSetting at h
  split_ifs at h
  · exact recalculateCadence_error _ _ h
  · exact recalculateDriveTime_error _ _ h
  · exact recalculateRecoverTime_error _ _ h

theorem updatePaceSetting_ok_prev (g : Option String) (s t : AppState)
    (h : updatePaceSetting g s = .ok t) : t.previousSettings = s.previousSettings := by
  unfold updatePaceSetting at h
  split_ifs at h
  · rw [recalculateCadence_ok _ _ h]
  · rw [recalculateDriveTime_ok _ _ h]
  · rw [recalculateRecoverTime_ok _ _ h]
  · injection h with h; rw [← h]

theorem updatePaceSetting_ok_pace (g : Option String) (s t : AppState) (f : Setting)
    (hne : g ≠ some (settingName f)) (h : updatePaceSetting g s = .ok t) :
    getPace f t.paceSettings = getPace f s.paceSettings := by
  unfold updatePaceSetting at h
  split_ifs at h with hc1 hc2 hc3
  · rw [recalculateCadence_ok _ _ h]
    cases f with
    | cadence => exact absurd hc1 hne
    | driveTime => rfl
    | recoverTime => rfl
  · rw [recalculateDriveTime_ok _ _ h]
    cases f with
    | cadence => rfl
    | driveTime => exact absurd hc2 hne
    | recoverTime => rfl
  · rw [recalculateRecoverTime_ok _ _ h]
    cases f with
    | cadence => rfl
    | driveTime => rfl
    | recoverTime => exact absurd hc3 hne
  · injection h with h; rw [← h]

theorem addToPreviousSettings_length (x : String) (prev : List String) :
    (addToPreviousSettings x prev).length = prev.length := by
  unfold addToPreviousSettings
  split
  · rfl
  · simp

theorem mem_addToPreviousSettings (x : String) (prev : List String)
    (h : addToPreviousSettings x prev ≠ []) : x ∈ addToPreviousSettings x prev := by
  by_cases hd : prev.get? 1 = some x
  · rw [addToPreviousSettings, if_pos hd]
    exact List.get?_mem hd
  · rw [addToPreviousSettings, if_neg hd] at h ⊢
    cases prev with
    | nil => simp at h
    | cons p rest => simp

theorem head?_filter_prop {α : Type u} (p : α → Bool) (l : List α) (a : α)
    (h : (l.filter p).head? = some a) : a ∈ l ∧ p a = true := by
  have hm : a ∈ l.filter p := by
    cases hf : l.filter p with
    | nil => rw [hf] at h; simp at h
    | cons b rest =>
      rw [hf] at h
      simp only [List.head?_cons, Option.some.injEq] at h
      subst h
      simp
  exact ⟨List.mem_of_mem_filter hm, List.of_mem_filter hm⟩

theorem findRemainingInput_not_prev (s : AppState) (g : String)
    (h : findRemainingInput s = some g) : ¬ g ∈ s.previousSettings := by
  have := head?_filter_prop _ _ _ h
  have hg := this.2
  simpa using hg

theorem updatePaceSetting_find_preserves (X s' : AppState) (f : Setting)
    (hmem : settingName f ∈ X.previousSettings)
    (h : updatePaceSetting (findRemainingInput X) X = .ok s') :
    getPace f s'.paceSettings = getPace f X.paceSettings := by
  cases hg : findRemainingInput X with
  | none =>
    rw [hg] at h
    unfold updatePaceSetting at h
    simp at h
    rw [← h]
  | some str =>
    rw [hg] at h
    have hstr := findRemainingInput_not_prev _ _ hg
    have hne : (some str : Option String) ≠ some (settingName f) := by
      intro hc
      injection hc with hc
      subst hc
      exact hstr hmem
    exact updatePaceSetting_ok_pace _ _ _ f hne h

theorem lookupLabel_assocUpdate_self (l : String) (v : ℕ) (xs : List (String × ℕ)) :
    lookupLabel l (assocUpdate l v xs) = some v := by
  induction xs with
  | nil => simp [assocUpdate, lookupLabel]
  | cons kv rest ih =>
    obtain ⟨k, w⟩ := kv
    by_cases hk : k = l
    · subst hk; simp [assocUpdate, lookupLabel]
    · simp [assocUpdate, lookupLabel, hk, ih]

theorem lookupLabel_mem_values (l : String) (xs : List (String × ℕ)) (h : ℕ)
    (hl : lookupLabel l xs = some h) : h ∈ timeoutValues xs := by
  induction xs with
  | nil => simp [lookupLabel] at hl
  | cons kv rest ih =>
    obtain ⟨k, w⟩ := kv
    simp only [lookupLabel] at hl
    split at hl
    · injection hl with hl
      simp [timeoutValues, hl]
    · simp only [timeoutValues, List.map_cons, List.mem_cons]
      exact Or.inr (by simpa [timeoutValues] using ih hl)

theorem mem_timeoutKeys_assocUpdate (a l : String) (v : ℕ) (xs : List (String × ℕ)) :
    a ∈ timeoutKeys (assocUpdate l v xs) ↔ a ∈ timeoutKeys xs ∨ a = l := by
  induction xs with
  | nil => simp [assocUpdate, timeoutKeys]
  | cons kv rest ih =>
    obtain ⟨k, w⟩ := kv
    by_cases hk : k = l
    · subst hk
      simp [assocUpdate, timeoutKeys]
      tauto
    · simp [assocUpdate, hk, timeoutKeys] at ih ⊢
      tauto

theorem timeoutKeys_nodup_assocUpdate (l : String) (v : ℕ) (xs : List (String × ℕ))
    (h : (timeoutKeys xs).Nodup) : (timeoutKeys (assocUpdate l v xs)).Nodup := by
  induction xs with
  | nil => simp [assocUpdate, timeoutKeys]
  | cons kv rest ih =>
    obtain ⟨k, w⟩ := kv
    simp only [timeoutKeys, List.map_cons, List.nodup_cons] at h
    by_cases hk : k = l
    · subst hk
      simpa [assocUpdate, timeoutKeys, List.nodup_cons] using h
    · simp only [assocUpdate, if_neg hk, timeoutKeys, List.map_cons, List.nodup_cons]
      refine ⟨fun hc => ?_, ih h.2⟩
      rcases (mem_timeoutKeys_assocUpdate k l v rest).mp (by simpa [timeoutKeys] using hc) with hc2 | hc2
      · exact h.1 (by simpa [timeoutKeys] using hc2)
      · exact hk hc2

theorem not_mem_values_assocUpdate (l : String) (v h : ℕ) (xs : List (String × ℕ))
    (hvals : (timeoutValues xs).Nodup) (hlook : lookupLabel l xs = some h) (hne : h ≠ v) :
    ¬ h ∈ timeoutValues (assocUpdate l v xs) := by
  induction xs with
  | nil => simp [lookupLabel] at hlook
  | cons kv rest ih =>
    obtain ⟨k, w⟩ := kv
    simp only [timeoutValues, List.map_cons, List.nodup_cons] at hvals
    simp only [lookupLabel] at hlook
    split at hlook
    · next hk =>
      injection hlook with hlook
      subst hlook
      simp only [assocUpdate, if_pos hk, timeoutValues, List.map_cons, List.mem_cons]
      push_neg
      exact ⟨hne, fun hc => hvals.1 (by simpa [timeoutValues] using hc)⟩
    · next hk =>
      have hmem : h ∈ timeoutValues rest := lookupLabel_mem_values _ _ _ hlook
      simp only [assocUpdate, if_neg hk, timeoutValues, List.map_cons, List.mem_cons]
      push_neg
      refine ⟨fun hc => ?_, by simpa [timeoutValues] using ih hvals.2 hlook⟩
      subst hc
      exact hvals.1 (by simpa [timeoutValues] using hmem)

theorem getPace_setPace_self (f : Setting) (v : JSNum) (ps : PaceSettings) :
    getPace f (setPace f v ps) = v := by
  cases f <;> rfl

/-! ## The claims -/

/-- C10: for every setting name that is not one of `cadence`, `driveTime`,
`recoverTime` (including the `undefined` produced when `findRemainingInput`
finds no candidate), `updatePaceSetting` returns without throwing and
leaves the whole state — in particular all three pace fields and
`previousSettings` — unchanged: the `hasOwnProperty` guard fails and the
function only logs to the console. -/
theorem updatePaceSetting_unknown_noop (setting : Option String) (s : AppState)
    (h1 : setting ≠ some "cadence") (h2 : setting ≠ some "driveTime")
    (h3 : setting ≠ some "recoverTime") :
    updatePaceSetting setting s = .ok s := by
  unfold updatePaceSetting
  rw [if_neg h1, if_neg h2, if_neg h3]

theorem updatePaceSetting_unknown_noop_witness :
    updatePaceSetting (some "pace") loadState = .ok loadState :=
  updatePaceSetting_unknown_noop (some "pace") loadState (by decide) (by decide) (by decide)

/-- C6, counterexample: `round` from the source does not round half away from
zero.  At `x = -0.005` (third decimal digit exactly 5) it returns `0`
(`Math.round(-0.5)` is `-0`, i.e. rounding the tie toward `+∞`), while
rounding half away from zero would give `-0.01`. -/
theorem round_neg_tie_not_away_from_zero :
    round (.num (-1 / 200)) 2 = .num 0 ∧
    roundHalfAwayFromZero (-1 / 200) 2 = -1 / 100 ∧
    round (.num (-1 / 200)) 2 ≠ .num (roundHalfAwayFromZero (-1 / 200) 2) :=
  ⟨by decide, by decide, by decide⟩

/-- C6, amended: `round(x, 2)` rounds to the 2-decimal grid half *up*
(toward `+∞`), not half away from zero: the result is the unique multiple
`n/100` of `0.01` with `n - 1/2 ≤ 100·x < n + 1/2`.  For non-negative `x`
this coincides with rounding half away from zero; for negative `x` a tie
is rounded toward zero. -/
theorem round_two_places_half_up (x : ℚ) :
    ∃ n : ℤ, round (.num x) 2 = .num ((n : ℚ) / 100) ∧
      ((2 * n - 1 : ℤ) : ℚ) ≤ 200 * x ∧ 200 * x < ((2 * n + 1 : ℤ) : ℚ) := by
  refine ⟨⌊x * 100 + 1 / 2⌋, ?_, ?_, ?_⟩
  · unfold round
    congr 1
  · have h := Int.floor_le (x * 100 + 1 / 2)
    push_cast
    linarith
  · have h := Int.lt_floor_add_one (x * 100 + 1 / 2)
    push_cast
    linarith

theorem round_two_places_half_up_witness :
    ∃ n : ℤ, round (.num (1 / 8)) 2 = .num ((n : ℚ) / 100) ∧
      ((2 * n - 1 : ℤ) : ℚ) ≤ 200 * (1 / 8 : ℚ) ∧
      200 * (1 / 8 : ℚ) < ((2 * n + 1 : ℤ) : ℚ) :=
  round_two_places_half_up (1 / 8)

/-- C2, counterexample: `inputUpdated` stores
`Number.parseFloat(this.value)` without any empty/invalid guard, and
`parseFloat("")` is `NaN`, not `0`: editing the cadence input to the empty
string stores `NaN` into `paceSettings.cadence`. -/
theorem inputUpdated_empty_stores_nan :
    (inputUpdated Setting.cadence "" loadState).map (fun t => t.paceSettings.cadence) =
      .ok JSNum.nan ∧
    JSNum.nan ≠ JSNum.num 0 :=
  ⟨by decide, by decide⟩

/-- C2, amended: whenever `inputUpdated` returns normally, the edited
field holds exactly `parseFloat(rawValue)`; for empty (and other
unparsable) input that value is `NaN`, not `0`. -/
theorem inputUpdated_stores_parseFloat (f : Setting) (raw : String) (s s' : AppState)
    (h : inputUpdated f raw s = .ok s') :
    getPace f s'.paceSettings = parseFloat raw ∧
    (raw = "" → getPace f s'.paceSettings = .nan) := by
  have hmain : getPace f s'.paceSettings = parseFloat raw := by
    simp only [inputUpdated] at h
    split at h
    · injection h with h
      subst h
      exact getPace_setPace_self f _ _
    · next hguard =>
      have hprev_ne :
          addToPreviousSettings (settingName f) (stopAnimation s).previousSettings ≠ [] := by
        intro hc
        apply hguard
        simp [hc]
      have hp := updatePaceSetting_find_preserves _ _ f
        (mem_addToPreviousSettings _ _ hprev_ne) h
      rw [hp]
      exact getPace_setPace_self f _ _
  exact ⟨hmain, fun he => by rw [hmain, he]; decide⟩

theorem inputUpdated_stores_parseFloat_witness :
    getPace Setting.cadence
        (match inputUpdated Setting.cadence "" loadState with
          | .ok t => t
          | .error t => t).paceSettings = parseFloat "" :=
  (inputUpdated_stores_parseFloat Setting.cadence "" loadState _ (by decide)).1

/-- The state of the worked example in the spec: `cadence = 60` and
`recoverTime = 2` were entered, drive time is about to be derived. -/
def invalidDriveState : AppState :=
  { loadState with paceSettings :=
    { cadence := .num 60, driveTime := .num 0, recoverTime := .num 2 } }

/-- C4: whenever a derivation fails (`InvalidPace`, modelled as the thrown
`Error` of the three `recalculate*` functions), the state carried past the
throw is the fully reset one — all three pace fields read 0 and
`previousSettings` is cleared — because each `recalculate*` calls
`resetInputs()` before throwing.  In particular deriving drive time from
`cadence = 60`, `recoverTime = 2` computes `round(60/60 - 2, 2) = -1 < 0`,
fails, and afterwards all three fields read 0. -/
theorem invalidPace_full_reset :
    (∀ (setting : Option String) (s s' : AppState),
      updatePaceSetting setting s = .error s' →
        s'.paceSettings = { cadence := .num 0, driveTime := .num 0, recoverTime := .num 0 } ∧
        s'.previousSettings = ["", ""]) ∧
    updatePaceSetting (some "driveTime") invalidDriveState =
      .error (resetInputs invalidDriveState) ∧
    (resetInputs invalidDriveState).paceSettings =
      { cadence := .num 0, driveTime := .num 0, recoverTime := .num 0 } := by
  refine ⟨fun setting s s' h => ?_, by decide, by decide⟩
  rw [updatePaceSetting_error _ _ _ h]
  exact ⟨rfl, rfl⟩

theorem invalidPace_full_reset_witness :
    (resetInputs invalidDriveState).paceSettings =
      { cadence := .num 0, driveTime := .num 0, recoverTime := .num 0 } ∧
    (resetInputs invalidDriveState).previousSettings = ["", ""] :=
  invalidPace_full_reset.1 (some "driveTime") invalidDriveState
    (resetInputs invalidDriveState) (by decide)

/-- C7: when, after recording the edit, the recency tracker still holds
fewer than two real entries (slot 0 is still the `""` placeholder, i.e.
fewer than two distinct fields have ever been edited), `inputUpdated`
stores the parsed value and returns before any derivation: the result is
exactly the post-edit state, and every other field — in particular the
third, underived one — keeps its previous value (so it stays 0 if it was
0). -/
theorem inputUpdated_no_derivation_below_two (f : Setting) (raw : String) (s : AppState)
    (h : (addToPreviousSettings (settingName f) s.previousSettings).get? 0 = some "") :
    inputUpdated f raw s = .ok
      { stopAnimation s with
        previousSettings := addToPreviousSettings (settingName f) s.previousSettings
        paceSettings := setPace f (parseFloat raw) s.paceSettings } ∧
    ∀ g : Setting, g ≠ f →
      getPace g (setPace f (parseFloat raw) s.paceSettings) = getPace g s.paceSettings := by
  constructor
  · simp only [inputUpdated]
    have hc : ((addToPreviousSettings (settingName f)
        (stopAnimation s).previousSettings).get? 0).getD "" = "" := by
      show ((addToPreviousSettings (settingName f) s.previousSettings).get? 0).getD "" = ""
      rw [h]
      rfl
    rw [if_pos hc]
    rfl
  · intro g hg
    cases f <;> cases g <;> first | exact absurd rfl hg | rfl

theorem inputUpdated_no_derivation_below_two_witness :
    inputUpdated Setting.cadence "30" loadState = .ok
      { stopAnimation loadState with
        previousSettings := addToPreviousSettings (settingName Setting.cadence)
          loadState.previousSettings
        paceSettings := setPace Setting.cadence (parseFloat "30") loadState.paceSettings } :=
  (inputUpdated_no_derivation_below_two Setting.cadence "30" loadState (by decide)).1

theorem inputUpdated_prev (f : Setting) (raw : String) (s t : AppState) :
    (inputUpdated f raw s = .ok t →
      t.previousSettings = addToPreviousSettings (settingName f) s.previousSettings) ∧
    (inputUpdated f raw s = .error t → t.previousSettings = ["", ""]) := by
  constructor
  · intro h
    simp only [inputUpdated] at h
    split at h
    · injection h with h
      subst h
      rfl
    · rw [updatePaceSetting_ok_prev _ _ _ h]
      rfl
  · intro h
    simp only [inputUpdated] at h
    split at h
    · exact Except.noConfusion h
    · rw [updatePaceSetting_error _ _ _ h]
      rfl

theorem applyOp_prev_length (op : Op) (s : AppState)
    (h : s.previousSettings.length = 2) : ((applyOp op s).previousSettings).length = 2 := by
  cases op with
  | reset => rfl
  | edit f raw =>
    simp only [applyOp]
    cases hiu : inputUpdated f raw s with
    | ok t =>
      show t.previousSettings.length = 2
      rw [(inputUpdated_prev f raw s t).1 hiu, addToPreviousSettings_length]
      exact h
    | error t =>
      show t.previousSettings.length = 2
      rw [(inputUpdated_prev f raw s t).2 hiu]
      rfl

theorem applyOps_prev_length (ops : List Op) (s : AppState)
    (h : s.previousSettings.length = 2) : ((applyOps ops s).previousSettings).length = 2 := by
  induction ops generalizing s with
  | nil => exact h
  | cons op rest ih =>
    show ((applyOps rest (applyOp op s)).previousSettings).length = 2
    exact ih _ (applyOp_prev_length op s h)

/-- C8: the recency tracker is a fixed-size-2 ordered buffer preserved by
every edit: pushing the field equal to the most-recent entry
(`previousSettings[1]`) leaves the buffer unchanged; pushing a different
field appends it and evicts the oldest entry; and after any sequence of
edits and resets starting from the loaded page the buffer holds exactly 2
entries. -/
theorem previousSettings_window_invariant :
    (∀ a b : String, addToPreviousSettings b [a, b] = [a, b]) ∧
    (∀ a b x : String, b ≠ x → addToPreviousSettings x [a, b] = [b, x]) ∧
    (∀ ops : List Op, ((applyOps ops loadState).previousSettings).length = 2) := by
  refine ⟨fun a b => ?_, fun a b x hbx => ?_,
    fun ops => applyOps_prev_length ops loadState rfl⟩
  · rw [addToPreviousSettings, if_pos (show [a, b].get? 1 = some b from rfl)]
  · rw [addToPreviousSettings,
      if_neg (show ¬ [a, b].get? 1 = some x from fun hc => hbx (Option.some.inj hc))]
    rfl

theorem previousSettings_window_invariant_witness :
    addToPreviousSettings "cadence" ["driveTime", "cadence"] = ["driveTime", "cadence"] ∧
    addToPreviousSettings "recoverTime" ["driveTime", "cadence"] = ["cadence", "recoverTime"] ∧
    ((applyOps [] loadState).previousSettings).length = 2 :=
  ⟨previousSettings_window_invariant.1 "driveTime" "cadence",
   previousSettings_window_invariant.2.1 "driveTime" "cadence" "recoverTime" (by decide),
   previousSettings_window_invariant.2.2 []⟩

/-- C3, counterexample: at `driveTime = recoverTime = 0` (the loaded
state) `iterationDuration = 0 ≤ 0`, yet `recalculateCadence` does not
fail: in JavaScript `60/0` is `Infinity`, the string-exponent `round`
turns `Infinity` into `NaN`, `NaN < 0` is false, and `NaN` is stored as
the cadence. -/
theorem recalculateCadence_zero_duration_no_error :
    (recalculateCadence loadState).map (fun t => t.paceSettings.cadence) = .ok JSNum.nan ∧
    jsAdd loadState.paceSettings.driveTime loadState.paceSettings.recoverTime = .num 0 :=
  ⟨by decide, by decide⟩

theorem jsLt_round_sixty_div (d r : JSNum) :
    jsLt (round (jsDiv (.num 60) (jsAdd d r)) 2) (.num 0) = true ↔
    ∃ a b : ℚ, d = .num a ∧ r = .num b ∧ -12000 < a + b ∧ a + b < 0 := by
  cases d with
  | num a =>
    cases r with
    | num b =>
      show jsLt (round (jsDiv (.num 60) (.num (a + b))) 2) (.num 0) = true ↔ _
      by_cases hab : a + b = 0
      · constructor
        · intro hlt
          rw [hab] at hlt
          exact absurd hlt (by decide)
        · rintro ⟨a', b', ha, hb, h1, h2⟩
          injection ha with ha
          injection hb with hb
          subst ha
          subst hb
          linarith
      · have hdiv : jsDiv (.num 60) (.num (a + b)) = .num (60 / (a + b)) := by
          simp [jsDiv, hab]
        rw [hdiv]
        simp only [round, jsLt, decide_eq_true_eq]
        rw [ratFloor_eq]
        have hmul : 60 / (a + b) * (10 : ℚ) ^ 2 = 6000 / (a + b) := by ring
        constructor
        · intro hlt
          have hfl : ⌊60 / (a + b) * (10 : ℚ) ^ 2 + 1 / 2⌋ < 0 := by
            by_contra hge
            push_neg at hge
            have h1 : (0 : ℚ) ≤ (⌊60 / (a + b) * (10 : ℚ) ^ 2 + 1 / 2⌋ : ℚ) :=
              Int.cast_nonneg.mpr hge
            have h2 : (0 : ℚ) ≤ (⌊60 / (a + b) * (10 : ℚ) ^ 2 + 1 / 2⌋ : ℚ) / 10 ^ 2 := by
              positivity
            linarith
          have hlt2 : 60 / (a + b) * (10 : ℚ) ^ 2 + 1 / 2 < 0 := by
            have := Int.floor_lt.mp (by exact_mod_cast hfl)
            simpa using this
          rw [hmul] at hlt2
          have hneg : a + b < 0 := by
            rcases lt_trichotomy (a + b) 0 with h | h | h
            · exact h
            · exact absurd h hab
            · have : (0 : ℚ) < 6000 / (a + b) := by positivity
              linarith
          refine ⟨a, b, rfl, rfl, ?_, hneg⟩
          have := (div_lt_iff_of_neg hneg).mp (by linarith : 6000 / (a + b) < -(1 / 2))
          linarith
        · rintro ⟨a', b', ha, hb, h1, h2⟩
          injection ha with ha
          injection hb with hb
          subst ha
          subst hb
          have hneg : a + b < 0 := h2
          have hq : 6000 / (a + b) < -(1 / 2) :=
            (div_lt_iff_of_neg hneg).mpr (by linarith)
          have hfl : ⌊60 / (a + b) * (10 : ℚ) ^ 2 + 1 / 2⌋ < 0 := by
            apply Int.floor_lt.mpr
            rw [hmul]
            push_cast
            linarith
          have h1 : (⌊60 / (a + b) * (10 : ℚ) ^ 2 + 1 / 2⌋ : ℚ) < 0 := by
            exact_mod_cast hfl
          have h100 : (0 : ℚ) < 10 ^ 2 := by norm_num
          exact div_neg_of_neg_of_pos h1 h100
    | nan =>
      exact ⟨fun hlt => Bool.noConfusion hlt,
        fun ⟨a', b', ha, hb, h1, h2⟩ => JSNum.noConfusion hb⟩
    | inf =>
      exact ⟨fun hlt => Bool.noConfusion hlt,
        fun ⟨a', b', ha, hb, h1, h2⟩ => JSNum.noConfusion hb⟩
    | ninf =>
      exact ⟨fun hlt => Bool.noConfusion hlt,
        fun ⟨a', b', ha, hb, h1, h2⟩ => JSNum.noConfusion hb⟩
  | nan =>
    cases r <;>
      exact ⟨fun hlt => Bool.noConfusion hlt,
        fun ⟨a', b', ha, hb, h1, h2⟩ => JSNum.noConfusion ha⟩
  | inf =>
    cases r <;>
      exact ⟨fun hlt => Bool.noConfusion hlt,
        fun ⟨a', b', ha, hb, h1, h2⟩ => JSNum.noConfusion ha⟩
  | ninf =>
    cases r <;>
      exact ⟨fun hlt => Bool.noConfusion hlt,
        fun ⟨a', b', ha, hb, h1, h2⟩ => JSNum.noConfusion ha⟩

/-- A state whose entered drive and recover times sum to `-3000` seconds;
`60 / -3000` rounds to `-0.02 < 0`, so deriving the cadence fails. -/
def negDurationState : AppState :=
  { loadState with paceSettings :=
    { cadence := .num 0, driveTime := .num (-3000), recoverTime := .num 0 } }

/-- C3, amended: `recalculateCadence` computes
`iterationDuration = driveTime + recoverTime` and
`cadence = round(60 / iterationDuration, 2)` and stores that cadence, but
it fails exactly when the stored cadence would be negative, i.e. when
`iterationDuration` is a finite number strictly between `-12000` and `0` —
not when `iterationDuration ≤ 0`: at exactly `0` it stores `NaN` (60/0 is
`Infinity`, rounded to `NaN`), and at or below `-12000` the quotient
rounds to `-0` and a cadence of `0` is stored. -/
theorem recalculateCadence_error_iff (s : AppState) :
    ((∃ s', recalculateCadence s = .error s') ↔
      ∃ a b : ℚ, s.paceSettings.driveTime = .num a ∧ s.paceSettings.recoverTime = .num b ∧
        -12000 < a + b ∧ a + b < 0) ∧
    (∀ s', recalculateCadence s = .error s' → s' = resetInputs s) ∧
    (∀ s', recalculateCadence s = .ok s' → s'.paceSettings.cadence =
      round (jsDiv (.num 60) (jsAdd s.paceSettings.driveTime s.paceSettings.recoverTime)) 2) := by
  refine ⟨?_, fun s' => recalculateCadence_error s s',
    fun s' h => by rw [recalculateCadence_ok _ _ h]⟩
  rw [← jsLt_round_sixty_div]
  constructor
  · rintro ⟨s', hs⟩
    cases hcond : jsLt (round (jsDiv (.num 60)
        (jsAdd s.paceSettings.driveTime s.paceSettings.recoverTime)) 2) (.num 0) with
    | true => rfl
    | false =>
      simp only [recalculateCadence] at hs
      rw [hcond] at hs
      simp at hs
  · intro hcond
    refine ⟨resetInputs s, ?_⟩
    simp only [recalculateCadence]
    rw [if_pos hcond]

theorem recalculateCadence_error_iff_witness :
    ∃ s', recalculateCadence negDurationState = .error s' :=
  (recalculateCadence_error_iff negDurationState).1.mpr
    ⟨-3000, 0, rfl, rfl, by norm_num, by norm_num⟩

theorem round_intdiv_hundred (n : ℤ) :
    round (.num ((n : ℚ) / 100)) 2 = .num ((n : ℚ) / 100) := by
  simp only [round]
  rw [ratFloor_eq]
  have h1 : (n : ℚ) / 100 * (10 : ℚ) ^ 2 + 1 / 2 = (n : ℚ) + 1 / 2 := by ring
  rw [h1]
  have h3 : ⌊(n : ℚ) + 1 / 2⌋ = n := by
    rw [Int.floor_eq_iff]
    constructor
    · linarith
    · linarith
  rw [h3]
  norm_num

/-- The state of the counterexample run: the user entered `cadence = 87`
and `recoverTime = 0.4`. -/
def driftState : AppState :=
  { loadState with paceSettings :=
    { cadence := .num 87, driveTime := .num 0, recoverTime := .num (2 / 5) } }

/-- C5, counterexample: from `cadence = 87`, `recoverTime = 0.4`,
`recalculateDriveTime` succeeds (`60/87 - 0.4 = 0.28965...` rounds to
`0.29`), but feeding `(0.29, 0.4)` back through `recalculateCadence`
yields `round(60/0.69, 2) = 86.96`, which differs from the original
cadence by `0.04 > 0.01`. -/
theorem roundtrip_not_within_tolerance :
    (recalculateDriveTime driftState >>= recalculateCadence).map
      (fun t => t.paceSettings.cadence) = .ok (.num (2174 / 25)) ∧
    ¬ ((87 : ℚ) - 2174 / 25 ≤ 1 / 100) :=
  ⟨by decide, by norm_num⟩

/-- C5, amended: the round trip reproduces the cadence exactly whenever no
rounding occurs, i.e. when the cadence is on the 2-decimal grid
(`cadence = m/100`, `m > 0`) and the derived drive time
`60/cadence - recoverTime` is already an exact non-negative multiple of
`0.01` (`= k/100`, `k ≥ 0`).  In general the claim fails: the up-to-0.005
rounding of the drive time can move the recomputed cadence by more than
0.01 (see the counterexample with cadence 87). -/
theorem roundtrip_exact_inputs (m k : ℤ) (r : ℚ) (s : AppState) (hm : 0 < m) (hk : 0 ≤ k)
    (hc : s.paceSettings.cadence = .num ((m : ℚ) / 100))
    (hr : s.paceSettings.recoverTime = .num r)
    (hrel : 60 / ((m : ℚ) / 100) - r = (k : ℚ) / 100) :
    (recalculateDriveTime s >>= recalculateCadence).map (fun t => t.paceSettings.cadence) =
      .ok (.num ((m : ℚ) / 100)) := by
  have hm' : (0 : ℚ) < (m : ℚ) := by exact_mod_cast hm
  have hk' : (0 : ℚ) ≤ (k : ℚ) := by exact_mod_cast hk
  have hmpos : (0 : ℚ) < (m : ℚ) / 100 := by positivity
  have hm0 : ((m : ℚ) / 100) ≠ 0 := ne_of_gt hmpos
  have hdiv : jsDiv (.num 60) s.paceSettings.cadence = .num (60 / ((m : ℚ) / 100)) := by
    rw [hc]
    simp [jsDiv, hm0]
  have hsub : jsSub (.num (60 / ((m : ℚ) / 100))) s.paceSettings.recoverTime =
      .num ((k : ℚ) / 100) := by
    rw [hr]
    simp only [jsSub, jsNeg, jsAdd, JSNum.num.injEq]
    linarith
  have hround : round (.num ((k : ℚ) / 100)) 2 = .num ((k : ℚ) / 100) :=
    round_intdiv_hundred k
  have hklt : jsLt (.num ((k : ℚ) / 100)) (.num 0) = false := by
    simp only [jsLt, decide_eq_false_iff_not, not_lt]
    positivity
  have h1 : recalculateDriveTime s = .ok { s with paceSettings :=
      { s.paceSettings with driveTime := .num ((k : ℚ) / 100) } } := by
    simp only [recalculateDriveTime, hdiv, hsub, hround, hklt]
    simp
  have hplus : jsAdd (JSNum.num ((k : ℚ) / 100)) s.paceSettings.recoverTime =
      .num (60 / ((m : ℚ) / 100)) := by
    rw [hr]
    simp only [jsAdd, JSNum.num.injEq]
    linarith
  have h60 : (60 : ℚ) / ((m : ℚ) / 100) ≠ 0 := by positivity
  have hdiv2 : jsDiv (.num 60) (.num (60 / ((m : ℚ) / 100))) = .num ((m : ℚ) / 100) := by
    simp only [jsDiv, if_neg h60]
    congr 1
    field_simp
    ring
  have hround2 : round (.num ((m : ℚ) / 100)) 2 = .num ((m : ℚ) / 100) :=
    round_intdiv_hundred m
  have hmlt : jsLt (.num ((m : ℚ) / 100)) (.num 0) = false := by
    simp only [jsLt, decide_eq_false_iff_not, not_lt]
    positivity
  rw [h1]
  show (recalculateCadence { s with paceSettings :=
      { s.paceSettings with driveTime := .num ((k : ℚ) / 100) } }).map
    (fun t => t.paceSettings.cadence) = .ok (.num ((m : ℚ) / 100))
  simp only [recalculateCadence, hplus, hdiv2, hround2, hmlt]
  simp only [Bool.false_eq_true, if_false]
  rfl

theorem roundtrip_exact_inputs_witness :
    (recalculateDriveTime { loadState with paceSettings :=
        { cadence := .num 20, driveTime := .num 0, recoverTime := .num 2 } } >>=
      recalculateCadence).map (fun t => t.paceSettings.cadence) =
      .ok (.num (((2000 : ℤ) : ℚ) / 100)) :=
  roundtrip_exact_inputs 2000 100 2
    { loadState with paceSettings :=
      { cadence := .num 20, driveTime := .num 0, recoverTime := .num 2 } }
    (by norm_num) (by norm_num) (by decide) (by decide) (by norm_num)

/-- C9: the timeout map holds at most one handle per label, and calling
`wait(ms, label)` while a timer stored under the same label is still
pending replaces the stored handle with the fresh one
(`timeoutIDs[id] = setTimeout(...)` overwrites): afterwards the label maps
to the new id, the keys still have no duplicates, and the handle of the earlier timer
 is no longer among `Object.values(timeoutIDs)` — so
the `clearTimeout` sweep in `stopAnimation` does not remove that timer and its
effect still fires once time passes its due time. -/
theorem wait_replaces_pending_label (s : AppState) (ms : ℕ) (label : String) (eff : Effect)
    (h : ℕ) (p : PendingTimer) (t : ℕ)
    (hkeys : (timeoutKeys s.timeoutIDs).Nodup)
    (hvals : (timeoutValues s.timeoutIDs).Nodup)
    (hbound : ∀ i ∈ timeoutValues s.timeoutIDs, i < s.nextTimeoutId)
    (hlook : lookupLabel label s.timeoutIDs = some h)
    (hp : p ∈ s.pending) (hpid : p.id = h) (ht : p.due ≤ t) :
    (timeoutKeys (wait ms label eff s).timeoutIDs).Nodup ∧
    lookupLabel label (wait ms label eff s).timeoutIDs = some s.nextTimeoutId ∧
    h ≠ s.nextTimeoutId ∧
    ¬ h ∈ timeoutValues (wait ms label eff s).timeoutIDs ∧
    p ∈ (stopAnimation (wait ms label eff s)).pending ∧
    p.eff ∈ firesBy (stopAnimation (wait ms label eff s)) t := by
  have hhb : h < s.nextTimeoutId := hbound h (lookupLabel_mem_values _ _ _ hlook)
  have hne : h ≠ s.nextTimeoutId := Nat.ne_of_lt hhb
  have hnotmem : ¬ h ∈ timeoutValues (assocUpdate label s.nextTimeoutId s.timeoutIDs) :=
    not_mem_values_assocUpdate label s.nextTimeoutId h s.timeoutIDs hvals hlook hne
  have hmemstop : p ∈ (stopAnimation (wait ms label eff s)).pending := by
    show p ∈ (s.pending ++ [(⟨s.nextTimeoutId, s.now + ms, eff⟩ : PendingTimer)]).filter
      (fun q : PendingTimer =>
        !(memN q.id (timeoutValues (assocUpdate label s.nextTimeoutId s.timeoutIDs))))
    apply List.mem_filter.mpr
    refine ⟨List.mem_append_left _ hp, ?_⟩
    rw [hpid]
    cases hmn : memN h (timeoutValues (assocUpdate label s.nextTimeoutId s.timeoutIDs)) with
    | false => rfl
    | true => exact absurd ((memN_iff _ _).mp hmn) hnotmem
  refine ⟨timeoutKeys_nodup_assocUpdate _ _ _ hkeys,
    lookupLabel_assocUpdate_self _ _ _, hne, hnotmem, hmemstop, ?_⟩
  unfold firesBy
  apply List.mem_map.mpr
  refine ⟨p, ?_, rfl⟩
  apply List.mem_filter.mpr
  exact ⟨hmemstop, by simp [ht]⟩

theorem wait_replaces_pending_label_witness :
    (timeoutKeys (wait 1700 "sounds" (.playCue "recover")
      (wait 1600 "sounds" (.playCue "recover") loadState)).timeoutIDs).Nodup ∧
    lookupLabel "sounds" (wait 1700 "sounds" (.playCue "recover")
      (wait 1600 "sounds" (.playCue "recover") loadState)).timeoutIDs = some 1 ∧
    (0 : ℕ) ≠ 1 ∧
    ¬ (0 : ℕ) ∈ timeoutValues (wait 1700 "sounds" (.playCue "recover")
      (wait 1600 "sounds" (.playCue "recover") loadState)).timeoutIDs ∧
    (⟨0, 1600, .playCue "recover"⟩ : PendingTimer) ∈
      (stopAnimation (wait 1700 "sounds" (.playCue "recover")
        (wait 1600 "sounds" (.playCue "recover") loadState))).pending ∧
    (⟨0, 1600, .playCue "recover"⟩ : PendingTimer).eff ∈
      firesBy (stopAnimation (wait 1700 "sounds" (.playCue "recover")
        (wait 1600 "sounds" (.playCue "recover") loadState))) 4000 :=
  wait_replaces_pending_label (wait 1600 "sounds" (.playCue "recover") loadState)
    1700 "sounds" (.playCue "recover") 0 ⟨0, 1600, .playCue "recover"⟩ 4000
    (by decide) (by decide) (by decide) (by decide) (by decide) (by decide) (by decide)

/-- C1, counterexample: `stop()` does not cancel every outstanding delay.
Scenario from the source: the drive-phase timer of iteration `n`, a
`wait(driveTime*1000, "sounds")` (whose continuation is
`playRecoverSound`, a `playCue` effect) is still pending when the next
`animationiteration` event re-enters `playSounds`, whose own
`wait(..., "sounds")` overwrites `timeoutIDs["sounds"]`; the user then
clicks Stop.  `stopAnimation` clears only the ids still in the map, the
orphaned timer survives, and its `playCue` effect fires once time passes
its due time — the claim requires that nothing fires. -/
theorem stop_misses_relabelled_timer :
    firesBy
      (stopAnimation
        (wait 1600 "sounds" (.playCue "recover")
          (advanceTime 1900
            (wait 1600 "sounds" (.playCue "recover") loadState)))) 4000 =
      [Effect.playCue "recover"] ∧
    ([] : List Effect) ≠ [Effect.playCue "recover"] :=
  ⟨by decide, by decide⟩

/-- C1, amended: after `stop()` no effect fires *provided the handle of every pending
timer is still recorded in the timeout map* — `stopAnimation`
clears every id in `Object.values(timeoutIDs)`, which covers all
outstanding delays as long as no label was reused while its earlier timer
was still pending.  A delay orphaned by such a reuse (see the
counterexample) is not cancelled and can still fire after `stop()`. -/
theorem stopAnimation_cancels_tracked (s : AppState) (t : ℕ)
    (hcov : ∀ p ∈ s.pending, p.id ∈ timeoutValues s.timeoutIDs) :
    firesBy (stopAnimation s) t = [] := by
  unfold firesBy stopAnimation
  rw [filter_out_tracked _ _ hcov]
  rfl

theorem stopAnimation_cancels_tracked_witness :
    firesBy (stopAnimation (wait 3300 "countdown" (.playCue "countdown") loadState)) 5000 = [] :=
  stopAnimation_cancels_tracked
    (wait 3300 "countdown" (.playCue "countdown") loadState) 5000 (by decide)

end WorkingSyncRow
